import Mathlib

/-!
Verification development for the dataset profiling engine of a browser-based
spreadsheet/profiling tool.  The engine consists of pure functions over an
in-memory table: CSV-derived rows of scalar cells, per-column statistics
(`calculateColumnStats`), and a whole-dataset quality report
(`generateGlobalAnalysis`) with type inference, duplicate detection, outlier
detection, mode, median, quartiles and date-range statistics.

JavaScript numbers are IEEE doubles in the source; the profiling arithmetic
(sums, means, medians, quartile indexing, IQR bounds, the 0.8 date-fraction
threshold with integer counts) is modelled exactly over `ℚ`.  The square root
inside the standard deviation is the one operation left out of the rational
model: the model stores the radicand (`stdDevSq`).  Host string/date builtins
(`String(v)`, `Number(s)`, `Date.parse`) are modelled on the value forms this
engine exercises; each model's doc comment states its scope.
-/

namespace GemSheet

/-- A table cell as manipulated by the source: a number (modelled as `ℚ`),
a text string, `null`, or `undefined` (also the result of reading an absent
key). -/
inductive Cell where
  | num (q : ℚ)
  | str (s : String)
  | null
  | undef
deriving DecidableEq, Repr

/-- The missing-value predicate of the source: `v === null`, `v === ''` or
`v === undefined`. -/
def Cell.isMissing : Cell → Bool
  | .null => true
  | .undef => true
  | .str s => decide (s = "")
  | .num _ => false

/-- `typeof v === 'number'`. -/
def Cell.isNum : Cell → Bool
  | .num _ => true
  | _ => false

/-- `typeof v === 'string'`. -/
def Cell.isStr : Cell → Bool
  | .str _ => true
  | _ => false

/-- Digits of a numeral char list read as a natural number. -/
def digitsToNat (l : List Char) : ℕ := l.foldl (fun a c => a * 10 + (c.toNat - 48)) 0

/-- Left-pad a numeral string with zeros up to the given length. -/
def padZeros (k : ℕ) (s : String) : String :=
  String.mk (List.replicate (k - s.length) '0') ++ s

/-- Smallest exponent `k ≤ 64` for which `q * 10 ^ k` is an integer, when one
exists. -/
def decExpOf (q : ℚ) : Option ℕ :=
  (List.range 65).find? (fun k => decide ((q * (10 : ℚ) ^ k).den = 1))

/-- Models the ECMAScript `String(v)` conversion for number cells: integers
print as decimal integers and rationals with a finite decimal expansion print
in positional notation without trailing zeros (the shortest round-trip
printing of a double holding a decimal value).  Rationals with no finite
decimal expansion cannot be produced by the CSV import step; they receive an
inert fallback rendering so the function stays total. -/
def numToString (q : ℚ) : String :=
  if q.den = 1 then toString q.num
  else
    match decExpOf |q| with
    | some k =>
      let n := ((|q| * (10 : ℚ) ^ k).num).toNat
      (if q < 0 then "-" else "") ++ Nat.repr (n / 10 ^ k) ++ "." ++
        padZeros k (Nat.repr (n % 10 ^ k))
    | none => toString q.num ++ "/" ++ toString (q.den : ℤ)

/-- `String(v)` over every cell form. -/
def cellToString : Cell → String
  | .num q => numToString q
  | .str s => s
  | .null => "null"
  | .undef => "undefined"

/-- All chars are decimal digits. -/
def allDigits (l : List Char) : Bool := l.all (·.isDigit)

/-- Models ECMAScript `Number(s)` (ToNumber on a string) on the forms the
engine needs: optional surrounding whitespace, an optional sign and a decimal
significand with an optional fractional part.  The empty or all-whitespace
string converts to 0, as in ECMAScript.  Hexadecimal, binary, octal,
`Infinity` and exponent forms are outside the model and fail to parse. -/
def jsParseNum (s : String) : Option ℚ :=
  let t := ((s.data.dropWhile Char.isWhitespace).reverse.dropWhile Char.isWhitespace).reverse
  if t.isEmpty then some 0
  else
    let sb : Bool × List Char :=
      match t with
      | '-' :: rest => (true, rest)
      | '+' :: rest => (false, rest)
      | _ => (false, t)
    let intPart := sb.2.takeWhile (·.isDigit)
    let rest := sb.2.dropWhile (·.isDigit)
    match rest with
    | [] =>
      if intPart.isEmpty then none
      else some (if sb.1 then -(digitsToNat intPart : ℚ) else (digitsToNat intPart : ℚ))
    | '.' :: frac =>
      if allDigits frac && !(intPart.isEmpty && frac.isEmpty) then
        let m := (digitsToNat intPart : ℚ) + (digitsToNat frac : ℚ) / (10 : ℚ) ^ frac.length
        some (if sb.1 then -m else m)
      else none
    | _ => none

/-- A calendar date, year/month/day. -/
structure YMD where
  year : ℕ
  month : ℕ
  day : ℕ
deriving DecidableEq, Repr

def isLeapYear (y : ℕ) : Bool := (y % 4 == 0 && y % 100 != 0) || y % 400 == 0

def daysInMonth (y m : ℕ) : ℕ :=
  if m = 2 then (if isLeapYear y then 29 else 28)
  else if m = 4 ∨ m = 6 ∨ m = 9 ∨ m = 11 then 30
  else 31

def digitVal (c : Char) : ℕ := c.toNat - 48

/-- Models ECMAScript date-string parsing (`Date.parse` / `new Date(string)`)
on the standard Date Time String Format restricted to its full date-only form
`YYYY-MM-DD`, which ECMA-262 interprets as midnight UTC; out-of-range
components yield an invalid date.  Implementation-specific lenient formats
are outside the model and fail to parse. -/
def jsDateParse (s : String) : Option YMD :=
  match s.data with
  | [y1, y2, y3, y4, '-', m1, m2, '-', d1, d2] =>
    if y1.isDigit && y2.isDigit && y3.isDigit && y4.isDigit &&
        m1.isDigit && m2.isDigit && d1.isDigit && d2.isDigit then
      let y := digitVal y1 * 1000 + digitVal y2 * 100 + digitVal y3 * 10 + digitVal y4
      let m := digitVal m1 * 10 + digitVal m2
      let d := digitVal d1 * 10 + digitVal d2
      if 1 ≤ m && m ≤ 12 && 1 ≤ d && d ≤ daysInMonth y m then some ⟨y, m, d⟩ else none
    else none
  | _ => none

/-- Chronological sort key of a calendar date; for the UTC-midnight dates the
model produces, comparison of these keys agrees with comparison of the
underlying time values (`getTime`). -/
def ymdKey (d : YMD) : ℕ := d.year * 10000 + d.month * 100 + d.day

/-- `toISOString().split('T')[0]` on a UTC-midnight date: the `YYYY-MM-DD`
calendar date string. -/
def formatYMD (d : YMD) : String :=
  padZeros 4 (Nat.repr d.year) ++ "-" ++ padZeros 2 (Nat.repr d.month) ++ "-" ++
    padZeros 2 (Nat.repr d.day)

/-- Models `new Date(String(v))` for a cell: only text cells in the modelled
ISO date-only format produce a valid date.  `String` of numbers, `null` and
`undefined` never yields a string in that format, which the model reflects
directly. -/
def jsNewDate : Cell → Option YMD
  | .str s => jsDateParse s
  | _ => none

/-- `s.includes(c)` for a single character. -/
def strContains (s : String) (c : Char) : Bool := s.data.any (· == c)

/-- An ECMAScript array-index property key: the canonical decimal string of an
integer below `2 ^ 32 - 1`.  Object property enumeration lists these keys
first, in ascending numeric order, before all other string keys in insertion
order. -/
def isArrayIndex (s : String) : Bool :=
  match s.data with
  | [] => false
  | c :: rest =>
    (c :: rest).all (·.isDigit) && (decide (c ≠ '0') || rest.isEmpty) &&
      decide (digitsToNat (c :: rest) < 2 ^ 32 - 1)

/-- Numeric value of an array-index key. -/
def keyNatVal (s : String) : ℕ := digitsToNat s.data

/-- ECMAScript own-property enumeration order (`Object.keys`,
`JSON.stringify`) applied to a list of distinct keys held in insertion
order: array-index keys ascending first, then the rest in insertion order. -/
def jsKeyOrder (keys : List String) : List String :=
  List.insertionSort (fun a b => keyNatVal a ≤ keyNatVal b) (keys.filter isArrayIndex) ++
    keys.filter (fun k => !isArrayIndex k)

/-! ### Shared numeric helpers of the source (`getMedian`, `getMode`,
`getStandardDeviation`, `getOutlierCount`) -/

/-- The source `getMedian`: 0 on empty input, middle element of the
ascending-sorted values when the length is odd, average of the two middle
elements when it is even. -/
def getMedian (values : List ℚ) : ℚ :=
  if values.length = 0 then 0
  else
    let sorted := List.insertionSort (· ≤ ·) values
    let mid := sorted.length / 2
    if sorted.length % 2 ≠ 0 then sorted.getD mid 0
    else (sorted.getD (mid - 1) 0 + sorted.getD mid 0) / 2

/-- One step of the source `getMode` loop over a counts object: bump the
count of a key, appending new keys at the end (object insertion order). -/
def bumpCount : List (String × ℕ) → String → List (String × ℕ)
  | [], k => [(k, 1)]
  | (k0, c) :: rest, k =>
    if k0 = k then (k0, c + 1) :: rest else (k0, c) :: bumpCount rest k

/-- `counts[k] || 0`. -/
def lookupCount (counts : List (String × ℕ)) (k : String) : ℕ := (counts.lookup k).getD 0

/-- The body of the `values.forEach` in the source `getMode`: increment the
count under key `String(v)` and track the running maximum frequency. -/
def modeStep (acc : List (String × ℕ) × ℕ) (v : Cell) : List (String × ℕ) × ℕ :=
  let key := cellToString v
  let counts := bumpCount acc.1 key
  let c := lookupCount counts key
  (counts, if acc.2 < c then c else acc.2)

/-- The source `getMode`: count values by their `String(v)` key in a plain
object while tracking the maximum frequency, then take `Object.keys` of the
counts (ECMAScript key order), keep the keys attaining the maximum frequency,
convert each key back to a number when `Number(key)` is not NaN, and keep at
most the first 3. -/
def getMode (values : List Cell) : List Cell :=
  if values.isEmpty then []
  else
    let cm := values.foldl modeStep ([], 0)
    (((jsKeyOrder (cm.1.map Prod.fst)).filter (fun k => lookupCount cm.1 k == cm.2)).map
      (fun k =>
        match jsParseNum k with
        | some q => Cell.num q
        | none => Cell.str k)).take 3

/-- The radicand of the source `getStandardDeviation`: the population
variance (mean of the squared deviations from `mean`; 0 on empty input).
The source returns `Math.sqrt` of this value, an operation outside the
rational model. -/
def getStandardDeviationSq (values : List ℚ) (mean : ℚ) : ℚ :=
  if values.length = 0 then 0
  else ((values.map (fun v => (v - mean) ^ 2)).foldl (· + ·) 0) / values.length

/-- The source `getOutlierCount`: number of values strictly outside
`[q1 - 1.5 * iqr, q3 + 1.5 * iqr]` where `iqr = q3 - q1`. -/
def getOutlierCount (values : List ℚ) (q1 q3 : ℚ) : ℕ :=
  let iqr := q3 - q1
  let lowerBound := q1 - 3 / 2 * iqr
  let upperBound := q3 + 3 / 2 * iqr
  (values.filter (fun v => decide (v < lowerBound) || decide (upperBound < v))).length

/-! ### Table model -/

/-- A row as a JavaScript object: its ordered list of own (key, value)
entries, property insertion order being the list order. -/
abbrev DataRow := List (String × Cell)

/-- `row[column]`: reading an absent key yields `undefined`. -/
def getCell (row : DataRow) (column : String) : Cell := (row.lookup column).getD Cell.undef

/-- `data.map(row => row[column])`. -/
def colValues (data : List DataRow) (column : String) : List Cell :=
  data.map (fun r => getCell r column)

/-- `values.filter(v => v !== null && v !== '' && v !== undefined)`. -/
def nonNullOf (values : List Cell) : List Cell := values.filter (fun v => !v.isMissing)

/-- `new Set(values).size`: the number of distinct cell values of the full
(unfiltered) column sequence. -/
def uniqueCount (values : List Cell) : ℕ := values.dedup.length

/-! ### Per-column statistics (`calculateColumnStats`) -/

structure Quartiles where
  q1 : ℚ
  q2 : ℚ
  q3 : ℚ
deriving DecidableEq, Repr

/-- The `ColumnStats` record of the source (optional fields absent when the
branch does not set them); `stdDevSq` holds the radicand of the source's
`stdDev`. -/
structure ColumnStats where
  type : String
  count : ℕ
  unique : ℕ
  missing : ℕ
  mean : Option ℚ := none
  median : Option ℚ := none
  min : Option Cell := none
  max : Option Cell := none
  stdDevSq : Option ℚ := none
  quartiles : Option Quartiles := none
deriving DecidableEq, Repr

/-- The numeric payload of a cell, when it is a number. -/
def toNumQ : Cell → Option ℚ
  | .num q => some q
  | _ => none

/-- The numeric sub-sequence of the non-missing values (the source's
`nonNullValues as number[]` cast / `filter(typeof v === 'number')`). -/
def numericOf (values : List Cell) : List ℚ := (nonNullOf values).filterMap toNumQ

/-- `nonNullValues.length > 0 && nonNullValues.every(v => typeof v === 'number')`. -/
def isNumericCol (values : List Cell) : Bool :=
  decide (0 < (nonNullOf values).length) && (nonNullOf values).all Cell.isNum

def listSum (l : List ℚ) : ℚ := l.foldl (· + ·) 0

/-- `Math.min(...l)` on a nonempty list (0 fallback, never reached by the
guarded call sites). -/
def listMinQ (l : List ℚ) : ℚ :=
  match l with
  | [] => 0
  | h :: t => t.foldl min h

/-- `Math.max(...l)` on a nonempty list (0 fallback, never reached by the
guarded call sites). -/
def listMaxQ (l : List ℚ) : ℚ :=
  match l with
  | [] => 0
  | h :: t => t.foldl max h

/-- The source `calculateColumnStats`: count, unique (unfiltered), missing,
then a Numeric payload (mean/median/min/max/stdDev/quartiles with
nearest-rank `q1`/`q3` at indices `floor(0.25 n)`/`floor(0.75 n)`) when every
non-missing value is a number and at least one exists, else a Categorical
payload with the lexicographic min/max of the stringified non-missing
values. -/
def calculateColumnStats (data : List DataRow) (column : String) : ColumnStats :=
  let values := colValues data column
  let nonNull := nonNullOf values
  let count := values.length
  let missing := count - nonNull.length
  let unique := uniqueCount values
  if isNumericCol values then
    let numericValues := numericOf values
    let sum := listSum numericValues
    let mean := if 0 < numericValues.length then sum / numericValues.length else 0
    let mn := if 0 < numericValues.length then listMinQ numericValues else 0
    let mx := if 0 < numericValues.length then listMaxQ numericValues else 0
    let median := getMedian numericValues
    let sdsq := getStandardDeviationSq numericValues mean
    let sorted := List.insertionSort (· ≤ ·) numericValues
    let q1 := sorted.getD (sorted.length / 4) 0
    let q3 := sorted.getD (3 * sorted.length / 4) 0
    { type := "Numeric", count := count, unique := unique, missing := missing,
      mean := some mean, median := some median,
      min := some (.num mn), max := some (.num mx),
      stdDevSq := some sdsq, quartiles := some ⟨q1, median, q3⟩ }
  else
    let stringValues := nonNull.map cellToString
    let sortedS := List.insertionSort (· ≤ ·) stringValues
    { type := "Categorical", count := count, unique := unique, missing := missing,
      min := if 0 < stringValues.length then some (.str (sortedS.getD 0 "")) else none,
      max := if 0 < stringValues.length then
        some (.str (sortedS.getD (sortedS.length - 1) "")) else none }

/-! ### Dataset-level analysis (`generateGlobalAnalysis`) -/

/-- The `numericStats` sub-object of a column analysis; `stdDevSq` holds the
radicand of the source's `stdDev`. -/
structure NumericStats where
  mean : ℚ
  median : ℚ
  mode : List Cell
  min : ℚ
  max : ℚ
  stdDevSq : ℚ
  outliers : ℕ
deriving DecidableEq, Repr

/-- The `dateStats` sub-object of a column analysis. -/
structure DateStats where
  min : String
  max : String
  invalidCount : ℕ
deriving DecidableEq, Repr

/-- The `ColumnAnalysis` record of the source. -/
structure ColumnAnalysis where
  name : String
  missing : ℕ
  unique : ℕ
  type : String
  issues : List String
  numericStats : Option NumericStats := none
  dateStats : Option DateStats := none
deriving DecidableEq, Repr

/-- `nonNull.filter(v => typeof v === 'number').length`. -/
def numCountOf (values : List Cell) : ℕ := ((nonNullOf values).filter Cell.isNum).length

/-- `nonNull.filter(v => typeof v === 'string').length`. -/
def strCountOf (values : List Cell) : ℕ := ((nonNullOf values).filter Cell.isStr).length

/-- The per-value date heuristic of the source: a string that parses as a
date (`!isNaN(Date.parse(v))`) and contains a `-` or `/` character. -/
def isDateLike : Cell → Bool
  | .str s => (jsDateParse s).isSome && (strContains s '-' || strContains s '/')
  | _ => false

/-- `nonNull.filter(isDateLike).length`. -/
def dateCountOf (values : List Cell) : ℕ := ((nonNullOf values).filter isDateLike).length

/-- The source's Date threshold `dateCount > nonNull.length * 0.8`, stated
over the integer counts: `0.8` is exactly `4/5` of the integer operands, and
with integer counts the IEEE float comparison of the source decides exactly
the rational inequality (the product `n * 0.8` carries a relative error below
`2 ^ (-52)`, far smaller than the minimum gap `1/5` between an integer and a
non-integer multiple of `4/5`, and for `n` a multiple of 5 the rounding of
`n * 0.8` never falls below the exact integer value).  The equivalent
integer form `4 * n < 5 * dateCount` is used so the cascade stays within
`ℕ`; `dateThreshold_iff` below restates it against the literal rational
inequality. -/
def dateThreshold (nonMissingCount dateCount : ℕ) : Prop :=
  4 * nonMissingCount < 5 * dateCount

instance (n a : ℕ) : Decidable (dateThreshold n a) := by
  unfold dateThreshold
  infer_instance

/-- The type-detection cascade of the source, in source order: Numeric when
numbers and no text; else Date when more than 80% of the non-missing values
look like dates; else Mixed when numbers and text coexist; else
Categorical. -/
def inferredType (values : List Cell) : String :=
  if 0 < numCountOf values ∧ strCountOf values = 0 then "Numeric"
  else if dateThreshold (nonNullOf values).length (dateCountOf values) then "Date"
  else if 0 < numCountOf values ∧ 0 < strCountOf values then "Mixed"
  else "Categorical"

/-- The issues pushed by the type-detection cascade itself (before the
outlier issue): invalid-date-formats for a Date column with some non-date
values, mixed-data-types for a Mixed column. -/
def seedIssues (values : List Cell) : List String :=
  if 0 < numCountOf values ∧ strCountOf values = 0 then []
  else if dateThreshold (nonNullOf values).length (dateCountOf values) then
    if dateCountOf values < (nonNullOf values).length then
      ["Invalid Date Formats Detected"]
    else []
  else if 0 < numCountOf values ∧ 0 < strCountOf values then
    ["Mixed Data Types (Numbers & Text)"]
  else []

/-- The `numericStats` computation of `generateGlobalAnalysis`: performed
when the type is Numeric, or Mixed with at least one number, over the numeric
sub-sequence; quartiles are nearest-rank at `floor(0.25 n)` and
`floor(0.75 n)` on the ascending sort. -/
def numericStatsOf (values : List Cell) : Option NumericStats :=
  if inferredType values = "Numeric" ∨
      (inferredType values = "Mixed" ∧ 0 < numCountOf values) then
    let numericValues := numericOf values
    if 0 < numericValues.length then
      let mean := listSum numericValues / numericValues.length
      let sorted := List.insertionSort (· ≤ ·) numericValues
      let q1 := sorted.getD (sorted.length / 4) 0
      let q3 := sorted.getD (3 * sorted.length / 4) 0
      some { mean := mean,
             median := getMedian numericValues,
             mode := getMode (numericValues.map Cell.num),
             min := listMinQ numericValues,
             max := listMaxQ numericValues,
             stdDevSq := getStandardDeviationSq numericValues mean,
             outliers := getOutlierCount numericValues q1 q3 }
    else none
  else none

/-- The outlier issue pushed while computing `numericStats`, when the
computed outlier count is positive. -/
def outlierIssueOf (values : List Cell) : List String :=
  match numericStatsOf values with
  | some s =>
    if 0 < s.outliers then ["Potential Outliers (" ++ Nat.repr s.outliers ++ ")"] else []
  | none => []

/-- The full issues list of a column, in push order. -/
def issuesOf (values : List Cell) : List String := seedIssues values ++ outlierIssueOf values

/-- `nonNull.map(v => new Date(String(v))).filter(d => !isNaN(d.getTime()))`. -/
def parsedDatesOf (values : List Cell) : List YMD := (nonNullOf values).filterMap jsNewDate

/-- The `dateStats` computation of `generateGlobalAnalysis`: only for a Date
column; parsed dates sorted chronologically, min/max formatted as calendar
date strings, invalid count = non-missing count minus parsed count; omitted
when nothing parses. -/
def dateStatsOf (values : List Cell) : Option DateStats :=
  if inferredType values = "Date" then
    let dateValues := List.insertionSort (fun a b => ymdKey a ≤ ymdKey b) (parsedDatesOf values)
    if 0 < dateValues.length then
      some { min := formatYMD (dateValues.getD 0 ⟨0, 0, 0⟩),
             max := formatYMD (dateValues.getD (dateValues.length - 1) ⟨0, 0, 0⟩),
             invalidCount := (nonNullOf values).length - dateValues.length }
    else none
  else none

/-- The per-column body of the `columns.forEach` loop of
`generateGlobalAnalysis`. -/
def analyzeValues (name : String) (values : List Cell) : ColumnAnalysis :=
  { name := name,
    missing := values.length - (nonNullOf values).length,
    unique := uniqueCount values,
    type := inferredType values,
    issues := issuesOf values,
    numericStats := numericStatsOf values,
    dateStats := dateStatsOf values }

/-- Models `JSON.stringify(row)` up to string injectivity: the list of own
(key, value) entries of the row with `undefined`-valued entries dropped (as
`JSON.stringify` drops them), listed in ECMAScript own-property order
(array-index keys ascending, then insertion order).  Two rows have equal
serializations exactly when these lists are equal. -/
def jsonCanon (row : DataRow) : List (String × Cell) :=
  let filtered := row.filter (fun p => !decide (p.2 = Cell.undef))
  (jsKeyOrder (filtered.map Prod.fst)).map (fun k => (k, (filtered.lookup k).getD Cell.undef))

/-- The body of the duplicate-scan loop: count a row whose serialization was
already seen, otherwise record the serialization. -/
def dupStep (acc : ℕ × List (List (String × Cell))) (row : DataRow) :
    ℕ × List (List (String × Cell)) :=
  let c := jsonCanon row
  if c ∈ acc.2 then (acc.1 + 1, acc.2) else (acc.1, c :: acc.2)

/-- The duplicate-row scan of `generateGlobalAnalysis`: rows in scan order,
a `Set` of already-seen serializations, count of rows whose serialization
was seen before. -/
def duplicateRowsCount (data : List DataRow) : ℕ := (data.foldl dupStep (0, [])).1

/-- The `GlobalAnalysisReport` record of the source; the `columns` record is
kept as the (column name, analysis) pairs in loop order. -/
structure GlobalAnalysisReport where
  totalRows : ℕ
  totalCols : ℕ
  duplicateRows : ℕ
  columns : List (String × ColumnAnalysis)
deriving DecidableEq, Repr

/-- The source `generateGlobalAnalysis`. -/
def generateGlobalAnalysis (data : List DataRow) (columns : List String) :
    GlobalAnalysisReport :=
  { totalRows := data.length,
    totalCols := columns.length,
    duplicateRows := duplicateRowsCount data,
    columns := columns.map (fun col => (col, analyzeValues col (colValues data col))) }

/-! ### Specification-side definitions

These follow the wording of the specification sentences under examination
and are compared with the source-derived definitions above. -/

/-- Type inference as the specification sentence states it: count numbers,
text values and date-looking text values among the non-missing values; then
Numeric when numbers and no text, else Date when the date count exceeds 0.8
of the non-missing count, else Mixed when numbers and text are both present,
else Categorical. -/
def inferTypeSpec (values : List Cell) : String :=
  if 0 < numCountOf values ∧ strCountOf values = 0 then "Numeric"
  else if ((nonNullOf values).length : ℚ) * (4 / 5) < (dateCountOf values : ℚ) then "Date"
  else if 0 < numCountOf values ∧ 0 < strCountOf values then "Mixed"
  else "Categorical"

/-- Generic duplicate count under a canonicalization: the number of row
indices whose canonical form equals the canonical form of some earlier row
in scan order (so the first occurrence of a canonical form is never
counted). -/
def dupSpecCount (canon : DataRow → List (String × Cell)) (data : List DataRow) : ℕ :=
  ((List.range data.length).filter
    (fun i => decide (canon (data.getD i []) ∈ (data.take i).map canon))).length

/-- Lexicographic comparison of char lists by code point, as an executable
total order on keys. -/
def charListLeB : List Char → List Char → Bool
  | [], _ => true
  | _ :: _, [] => false
  | a :: as, b :: bs =>
    if a.toNat < b.toNat then true
    else if b.toNat < a.toNat then false
    else charListLeB as bs

/-- An executable deterministic total order on strings (code-point
lexicographic). -/
def strLeB (a b : String) : Bool := charListLeB a.data b.data

/-- The key-insertion-order-independent canonicalization the claim about
duplicate detection describes: the row's (key, value) entries arranged by a
deterministic key ordering, so two rows with the same keys and values in
different insertion orders canonicalize identically. -/
def sortedRowCanon (row : DataRow) : List (String × Cell) :=
  List.insertionSort (fun a b => strLeB a.1 b.1 = true) row

/-- The outlier rule as the specification states it: on the ascending sort
of the numeric values, `q1` is the element at index `floor(0.25 n)` and `q3`
the element at index `floor(0.75 n)` (0 on an out-of-range index); the count
is of values strictly outside `[q1 - 1.5 iqr, q3 + 1.5 iqr]`. -/
def outlierRuleSpec (nums : List ℚ) : ℕ :=
  let sorted := List.insertionSort (· ≤ ·) nums
  let q1 := sorted.getD (sorted.length / 4) 0
  let q3 := sorted.getD (3 * sorted.length / 4) 0
  let iqr := q3 - q1
  (nums.filter (fun v => decide (v < q1 - 3 / 2 * iqr) || decide (q3 + 3 / 2 * iqr < v))).length

/-- A concrete column of 17 parseable date strings together with the numbers
0, 100, 100, 100: more than 80% of its non-missing values look like dates,
so the cascade types it Date even though numeric values are present. -/
def dateOutlierColumn : List Cell :=
  [Cell.num 0, Cell.num 100, Cell.num 100, Cell.num 100] ++
    (List.range 17).map (fun i => Cell.str ("2023-01-" ++ padZeros 2 (Nat.repr (i + 1))))

/-- The distinct `String(v)` keys of a value sequence in first-encountered
order. -/
def keysFE (values : List Cell) : List String :=
  (values.map cellToString).foldl (fun acc k => if k ∈ acc then acc else acc ++ [k]) []

/-- The frequency of a `String(v)` grouping key in a value sequence. -/
def freqOf (values : List Cell) (k : String) : ℕ :=
  values.countP (fun v => decide (cellToString v = k))

/-- The maximum grouping-key frequency of a value sequence. -/
def maxFreqSpec (values : List Cell) : ℕ :=
  ((keysFE values).map (freqOf values)).foldl max 0

/-- A grouping key converted back to a number when it parses as one, else
kept as text. -/
def keyToCell (k : String) : Cell :=
  match jsParseNum k with
  | some q => Cell.num q
  | none => Cell.str k

/-- The mode as the specification claim states it: the first (at most) 3
distinct values attaining the maximum frequency, emitted in
first-encountered order among ties, each converted back to a number when it
parses as one. -/
def modeSpecFE (values : List Cell) : List Cell :=
  (((keysFE values).filter (fun k => decide (freqOf values k = maxFreqSpec values))).map
    keyToCell).take 3

/-- The mode with the tie order the source actually produces: the grouping
keys in ECMAScript object key order (array-index-like keys ascending first,
then first-encountered order). -/
def modeSpecJS (values : List Cell) : List Cell :=
  (((jsKeyOrder (keysFE values)).filter
      (fun k => decide (freqOf values k = maxFreqSpec values))).map keyToCell).take 3

instance : IsTotal YMD (fun a b => ymdKey a ≤ ymdKey b) :=
  ⟨fun a b => Nat.le_total (ymdKey a) (ymdKey b)⟩

instance : IsTrans YMD (fun a b => ymdKey a ≤ ymdKey b) :=
  ⟨fun _ _ _ h1 h2 => le_trans h1 h2⟩

instance : IsRefl YMD (fun a b => ymdKey a ≤ ymdKey b) :=
  ⟨fun _ => le_refl _⟩

/-! ### Helper lemmas -/

/-- The integer Date threshold decides exactly the source's rational
comparison `dateCount > nonNull.length * 0.8`. -/
theorem dateThreshold_iff (n a : ℕ) :
    dateThreshold n a ↔ (n : ℚ) * (4 / 5) < (a : ℚ) := by
  unfold dateThreshold
  rw [mul_div_assoc']
  rw [div_lt_iff₀ (by norm_num : (0 : ℚ) < 5)]
  constructor
  · intro h
    have h2 : ((4 * n : ℕ) : ℚ) < ((5 * a : ℕ) : ℚ) := by exact_mod_cast h
    push_cast at h2
    linarith
  · intro h
    have h2 : ((4 * n : ℕ) : ℚ) < ((5 * a : ℕ) : ℚ) := by push_cast; linarith
    exact_mod_cast h2

theorem data_append (a b : String) : (a ++ b).data = a.data ++ b.data :=
  String.data_append a b

/-- The outlier issue string never collides with the mixed-types issue
string, whatever the printed count. -/
theorem outlierIssue_ne_mixed (k : ℕ) :
    "Potential Outliers (" ++ Nat.repr k ++ ")" ≠ "Mixed Data Types (Numbers & Text)" := by
  intro h
  have h2 := congrArg String.data h
  rw [data_append, data_append] at h2
  exact absurd (List.head_eq_of_cons_eq h2) (by decide)

/-- The outlier issue string never collides with the invalid-date issue
string, whatever the printed count. -/
theorem outlierIssue_ne_invalidDate (k : ℕ) :
    "Potential Outliers (" ++ Nat.repr k ++ ")" ≠ "Invalid Date Formats Detected" := by
  intro h
  have h2 := congrArg String.data h
  rw [data_append, data_append] at h2
  exact absurd (List.head_eq_of_cons_eq h2) (by decide)

/-- The numeric sub-sequence and the number count of the source measure the
same values. -/
theorem filterMap_toNumQ_length (l : List Cell) :
    (l.filterMap toNumQ).length = (l.filter Cell.isNum).length := by
  induction l with
  | nil => rfl
  | cons v t ih =>
    cases v <;> simp [toNumQ, Cell.isNum, List.filterMap_cons, ih]

theorem numericOf_length (values : List Cell) :
    (numericOf values).length = numCountOf values :=
  filterMap_toNumQ_length (nonNullOf values)

theorem length_filter_add_length_filter_not (p : Cell → Bool) (l : List Cell) :
    (l.filter p).length + (l.filter (fun v => !p v)).length = l.length := by
  induction l with
  | nil => rfl
  | cons v t ih =>
    by_cases h : p v <;> simp [List.filter_cons, h, ← ih] <;> omega

/-- The missing count of the per-column flow counts exactly the values
satisfying the missing predicate. -/
theorem calculateColumnStats_missing_eq (data : List DataRow) (column : String) :
    (calculateColumnStats data column).missing =
      ((colValues data column).filter Cell.isMissing).length := by
  have hmiss : (calculateColumnStats data column).missing =
      (colValues data column).length - (nonNullOf (colValues data column)).length := by
    by_cases h : isNumericCol (colValues data column) <;>
      simp [calculateColumnStats, h]
  have hsplit := length_filter_add_length_filter_not Cell.isMissing (colValues data column)
  have hnn : (nonNullOf (colValues data column)).length =
      ((colValues data column).filter (fun v => !v.isMissing)).length := rfl
  omega

/-- Every member of the outlier-issue list is an outlier message. -/
theorem mem_outlierIssueOf (values : List Cell) (s : String)
    (h : s ∈ outlierIssueOf values) :
    ∃ k, s = "Potential Outliers (" ++ Nat.repr k ++ ")" := by
  unfold outlierIssueOf at h
  rcases hns : numericStatsOf values with _ | st
  · rw [hns] at h
    exact absurd h (List.not_mem_nil s)
  · rw [hns] at h
    dsimp only at h
    by_cases hpos : 0 < st.outliers
    · rw [if_pos hpos] at h
      rcases List.mem_singleton.mp h with rfl
      exact ⟨st.outliers, rfl⟩
    · rw [if_neg hpos] at h
      exact absurd h (List.not_mem_nil s)

/-- When the inferred type is neither Numeric nor Mixed, no numeric stats
and hence no outlier issue are produced. -/
theorem outlierIssueOf_eq_nil_of_type (values : List Cell)
    (h1 : inferredType values ≠ "Numeric") (h2 : inferredType values ≠ "Mixed") :
    outlierIssueOf values = [] := by
  unfold outlierIssueOf numericStatsOf
  rw [if_neg]
  rintro (h | ⟨h, _⟩)
  · exact h1 h
  · exact h2 h

/-- The first element of an insertion sort is below every list element. -/
theorem insertionSort_head_rel {α : Type} (r : α → α → Prop) [DecidableRel r]
    [IsTotal α r] [IsTrans α r] [IsRefl α r] (l : List α) (d x : α) (hx : x ∈ l) :
    r ((List.insertionSort r l).getD 0 d) x := by
  have hs := List.sorted_insertionSort r l
  have hmem : x ∈ List.insertionSort r l := (List.mem_insertionSort r).mpr hx
  rcases hsort : List.insertionSort r l with _ | ⟨a, t⟩
  · rw [hsort] at hmem
    exact absurd hmem (List.not_mem_nil x)
  · rw [hsort] at hmem hs
    rcases List.mem_cons.mp hmem with rfl | hmem
    · exact refl _
    · exact List.rel_of_sorted_cons hs x hmem

/-- The last element of an insertion sort is above every list element. -/
theorem insertionSort_last_rel {α : Type} (r : α → α → Prop) [DecidableRel r]
    [IsTotal α r] [IsTrans α r] [IsRefl α r] (l : List α) (d x : α) (hx : x ∈ l) :
    r x ((List.insertionSort r l).getD ((List.insertionSort r l).length - 1) d) := by
  have hs := List.sorted_insertionSort r l
  have hmem : x ∈ List.insertionSort r l := (List.mem_insertionSort r).mpr hx
  rcases List.mem_iff_get.mp hmem with ⟨i, hget⟩
  have hpos : 0 < (List.insertionSort r l).length :=
    List.length_pos.mpr (List.ne_nil_of_mem hmem)
  have hlt : (List.insertionSort r l).length - 1 < (List.insertionSort r l).length := by
    omega
  rw [List.getD_eq_getElem _ _ hlt, ← hget]
  exact hs.rel_get_of_le (Fin.mk_le_mk.mpr (by omega) : i ≤ ⟨_, hlt⟩)

/-- A `getD 0` of a nonempty sorted list is a member of the unsorted list. -/
theorem insertionSort_getD_zero_mem {α : Type} (r : α → α → Prop) [DecidableRel r]
    (l : List α) (d : α) (h : l ≠ []) :
    (List.insertionSort r l).getD 0 d ∈ l := by
  have hpos : 0 < (List.insertionSort r l).length := by
    rw [List.length_insertionSort]
    exact List.length_pos.mpr h
  rw [List.getD_eq_getElem _ _ hpos]
  exact (List.mem_insertionSort r).mp (List.getElem_mem _)

/-- A `getD (length - 1)` of a nonempty sorted list is a member of the
unsorted list. -/
theorem insertionSort_getD_last_mem {α : Type} (r : α → α → Prop) [DecidableRel r]
    (l : List α) (d : α) (h : l ≠ []) :
    (List.insertionSort r l).getD ((List.insertionSort r l).length - 1) d ∈ l := by
  have hpos : 0 < (List.insertionSort r l).length := by
    rw [List.length_insertionSort]
    exact List.length_pos.mpr h
  have hlt : (List.insertionSort r l).length - 1 < (List.insertionSort r l).length := by
    omega
  rw [List.getD_eq_getElem _ _ hlt]
  exact (List.mem_insertionSort r).mp (List.getElem_mem _)

/-! ### Claim C6: missing + non-missing = totalRows -/

/-- C6: for every table and column, in both the per-column and the
dataset-level flow, the reported missing count plus the number of
non-missing values equals the number of rows; the missing count counts
exactly the values that are `null`, `undefined` or the empty string. -/
theorem missing_plus_nonmissing_eq_totalRows (data : List DataRow) (column : String) :
    ((calculateColumnStats data column).missing +
        (nonNullOf (colValues data column)).length = data.length) ∧
    ((analyzeValues column (colValues data column)).missing +
        (nonNullOf (colValues data column)).length = data.length) ∧
    ((calculateColumnStats data column).missing =
        ((colValues data column).filter Cell.isMissing).length) ∧
    ((analyzeValues column (colValues data column)).missing =
        ((colValues data column).filter Cell.isMissing).length) ∧
    (∀ v : Cell, v.isMissing = true ↔ (v = Cell.null ∨ v = Cell.undef ∨ v = Cell.str "")) := by
  have hlen : (colValues data column).length = data.length := List.length_map _ _
  have hle : (nonNullOf (colValues data column)).length ≤ (colValues data column).length :=
    List.length_filter_le _ _
  have hfil := calculateColumnStats_missing_eq data column
  have hmiss : (calculateColumnStats data column).missing =
      (colValues data column).length - (nonNullOf (colValues data column)).length := by
    by_cases h : isNumericCol (colValues data column) <;>
      simp [calculateColumnStats, h]
  have hmiss2 : (analyzeValues column (colValues data column)).missing =
      (colValues data column).length - (nonNullOf (colValues data column)).length := rfl
  have hsplit := length_filter_add_length_filter_not Cell.isMissing (colValues data column)
  have hnn : (nonNullOf (colValues data column)).length =
      ((colValues data column).filter (fun v => !v.isMissing)).length := rfl
  refine ⟨?_, ?_, ?_, ?_, ?_⟩
  · omega
  · omega
  · omega
  · omega
  · intro v
    cases v with
    | num q => simp [Cell.isMissing]
    | str s =>
      simp only [Cell.isMissing, decide_eq_true_eq]
      constructor
      · intro h; right; right; rw [h]
      · rintro (h | h | h) <;> simp_all
    | null => simp [Cell.isMissing]
    | undef => simp [Cell.isMissing]

/-! ### Claim C7: unique counts distinct values without missing-filtering -/

/-- C7: in both flows the unique count is the number of distinct cell values
of the full column sequence, with no missing-value filtering (so missing
values contribute their own distinct buckets), while the missing count does
filter by the missing predicate; a column holding a number twice and one
`null` therefore reports 2 distinct values and 1 missing. -/
theorem unique_counts_unfiltered (data : List DataRow) (column : String) :
    ((calculateColumnStats data column).unique = (colValues data column).dedup.length) ∧
    ((analyzeValues column (colValues data column)).unique =
        (colValues data column).dedup.length) ∧
    ((calculateColumnStats data column).missing =
        ((colValues data column).filter Cell.isMissing).length) ∧
    ((analyzeValues "c" [Cell.num 1, Cell.num 1, Cell.null]).unique = 2 ∧
      (analyzeValues "c" [Cell.num 1, Cell.num 1, Cell.null]).missing = 1) := by
  refine ⟨?_, rfl, calculateColumnStats_missing_eq data column, by decide⟩
  by_cases h : isNumericCol (colValues data column) <;>
    simp [calculateColumnStats, h, uniqueCount]

/-! ### Claim C1: type-inference precedence -/

/-- The source cascade computes exactly the specification's type. -/
theorem inferredType_eq_spec (values : List Cell) :
    inferredType values = inferTypeSpec values := by
  unfold inferredType inferTypeSpec
  by_cases c1 : 0 < numCountOf values ∧ strCountOf values = 0
  · rw [if_pos c1, if_pos c1]
  · rw [if_neg c1, if_neg c1]
    by_cases c2 : dateThreshold (nonNullOf values).length (dateCountOf values)
    · rw [if_pos c2, if_pos ((dateThreshold_iff _ _).mp c2)]
    · rw [if_neg c2, if_neg (fun h => c2 ((dateThreshold_iff _ _).mpr h))]

/-- C1: type inference over the non-missing values follows the exact
precedence Numeric, then Date (with the invalid-date issue exactly when some
non-missing value does not look like a date), then Mixed (with its issue),
then Categorical; with the four concrete classification examples. -/
theorem type_inference_precedence (name : String) (values : List Cell) :
    ((analyzeValues name values).type = inferTypeSpec values) ∧
    ("Invalid Date Formats Detected" ∈ (analyzeValues name values).issues ↔
      (inferTypeSpec values = "Date" ∧ dateCountOf values < (nonNullOf values).length)) ∧
    ("Mixed Data Types (Numbers & Text)" ∈ (analyzeValues name values).issues ↔
      inferTypeSpec values = "Mixed") ∧
    ((analyzeValues "c" [Cell.num 1, Cell.num 2, Cell.num 3]).type = "Numeric") ∧
    ((analyzeValues "c" [Cell.str "2023-01-01", Cell.str "2023-02-01"]).type = "Date") ∧
    ((analyzeValues "c" [Cell.num 1, Cell.str "a", Cell.num 2]).type = "Mixed" ∧
      "Mixed Data Types (Numbers & Text)" ∈
        (analyzeValues "c" [Cell.num 1, Cell.str "a", Cell.num 2]).issues) ∧
    ((analyzeValues "c" [Cell.str "a", Cell.str "b", Cell.str "a"]).type = "Categorical") := by
  have hspec := inferredType_eq_spec values
  have hiss : (analyzeValues name values).issues = seedIssues values ++ outlierIssueOf values :=
    rfl
  have htyp : (analyzeValues name values).type = inferredType values := rfl
  refine ⟨htyp.trans hspec, ?_, ?_, by decide, by decide, by decide, by decide⟩
  · rw [hiss, ← hspec]
    unfold inferredType seedIssues
    by_cases c1 : 0 < numCountOf values ∧ strCountOf values = 0
    · rw [if_pos c1, if_pos c1]
      have hout : outlierIssueOf values = outlierIssueOf values := rfl
      constructor
      · intro hmem
        rcases List.mem_append.mp hmem with hmem | hmem
        · exact absurd hmem (List.not_mem_nil _)
        · rcases mem_outlierIssueOf values _ hmem with ⟨k, hk⟩
          exact absurd hk.symm (outlierIssue_ne_invalidDate k)
      · rintro ⟨hd, _⟩
        exact absurd hd (by decide)
    · rw [if_neg c1, if_neg c1]
      by_cases c2 : dateThreshold (nonNullOf values).length (dateCountOf values)
      · rw [if_pos c2, if_pos c2]
        have hdate : inferredType values = "Date" := by
          unfold inferredType
          rw [if_neg c1, if_pos c2]
        have hout : outlierIssueOf values = [] :=
          outlierIssueOf_eq_nil_of_type values (by rw [hdate]; decide) (by rw [hdate]; decide)
        rw [hout, List.append_nil]
        by_cases hlt : dateCountOf values < (nonNullOf values).length
        · rw [if_pos hlt]
          simp [hlt]
        · rw [if_neg hlt]
          simp [hlt]
      · rw [if_neg c2, if_neg c2]
        by_cases c3 : 0 < numCountOf values ∧ 0 < strCountOf values
        · rw [if_pos c3, if_pos c3]
          constructor
          · intro hmem
            rcases List.mem_append.mp hmem with hmem | hmem
            · rcases List.mem_singleton.mp hmem with h
              exact absurd h (by decide)
            · rcases mem_outlierIssueOf values _ hmem with ⟨k, hk⟩
              exact absurd hk.symm (outlierIssue_ne_invalidDate k)
          · rintro ⟨hd, _⟩
            exact absurd hd (by decide)
        · rw [if_neg c3, if_neg c3]
          have hcat : inferredType values = "Categorical" := by
            unfold inferredType
            rw [if_neg c1, if_neg c2, if_neg c3]
          have hout : outlierIssueOf values = [] :=
            outlierIssueOf_eq_nil_of_type values (by rw [hcat]; decide) (by rw [hcat]; decide)
          rw [hout]
          simp
  · rw [hiss, ← hspec]
    unfold inferredType seedIssues
    by_cases c1 : 0 < numCountOf values ∧ strCountOf values = 0
    · rw [if_pos c1, if_pos c1]
      constructor
      · intro hmem
        rcases List.mem_append.mp hmem with hmem | hmem
        · exact absurd hmem (List.not_mem_nil _)
        · rcases mem_outlierIssueOf values _ hmem with ⟨k, hk⟩
          exact absurd hk.symm (outlierIssue_ne_mixed k)
      · intro hd
        exact absurd hd (by decide)
    · rw [if_neg c1, if_neg c1]
      by_cases c2 : dateThreshold (nonNullOf values).length (dateCountOf values)
      · rw [if_pos c2, if_pos c2]
        have hdate : inferredType values = "Date" := by
          unfold inferredType
          rw [if_neg c1, if_pos c2]
        have hout : outlierIssueOf values = [] :=
          outlierIssueOf_eq_nil_of_type values (by rw [hdate]; decide) (by rw [hdate]; decide)
        rw [hout, List.append_nil]
        by_cases hlt : dateCountOf values < (nonNullOf values).length
        · rw [if_pos hlt]
          constructor
          · intro hmem
            rcases List.mem_singleton.mp hmem with h
            exact absurd h (by decide)
          · intro hd
            exact absurd hd (by decide)
        · rw [if_neg hlt]
          constructor
          · intro hmem
            exact absurd hmem (List.not_mem_nil _)
          · intro hd
            exact absurd hd (by decide)
      · rw [if_neg c2, if_neg c2]
        by_cases c3 : 0 < numCountOf values ∧ 0 < strCountOf values
        · rw [if_pos c3, if_pos c3]
          constructor
          · intro _
            rfl
          · intro _
            exact List.mem_append.mpr (Or.inl (List.mem_singleton.mpr rfl))
        · rw [if_neg c3, if_neg c3]
          have hcat : inferredType values = "Categorical" := by
            unfold inferredType
            rw [if_neg c1, if_neg c2, if_neg c3]
          have hout : outlierIssueOf values = [] :=
            outlierIssueOf_eq_nil_of_type values (by rw [hcat]; decide) (by rw [hcat]; decide)
          rw [hout]
          constructor
          · intro hmem
            exact absurd hmem (List.not_mem_nil _)
          · intro hd
            exact absurd hd (by decide)

/-! ### Claim C9: determinism and idempotence of the aggregator -/

/-- C9: the dataset aggregation is a pure function of the rows and column
names: two invocations on the unchanged table produce structurally identical
reports. -/
theorem generateGlobalAnalysis_deterministic (d1 d2 : List DataRow) (c1 c2 : List String)
    (hd : d1 = d2) (hc : c1 = c2) :
    generateGlobalAnalysis d1 c1 = generateGlobalAnalysis d2 c2 := by
  subst hd
  subst hc
  rfl

/-- Witness for C9 at a concrete one-row table. -/
theorem generateGlobalAnalysis_deterministic_witness :
    generateGlobalAnalysis [[("a", Cell.num 1)]] ["a"] =
      generateGlobalAnalysis [[("a", Cell.num 1)]] ["a"] :=
  generateGlobalAnalysis_deterministic [[("a", Cell.num 1)]] [[("a", Cell.num 1)]]
    ["a"] ["a"] rfl rfl

/-! ### Claim C2: duplicate rows -/

/-- The per-index duplicate count only depends on the membership of the
seen-set. -/
theorem dupCount_seen_congr (rows : List DataRow) (s1 s2 : List (List (String × Cell)))
    (h : ∀ x, x ∈ s1 ↔ x ∈ s2) :
    ((List.range rows.length).filter
      (fun i => decide (jsonCanon (rows.getD i []) ∈
        s1 ++ (rows.take i).map jsonCanon))).length =
    ((List.range rows.length).filter
      (fun i => decide (jsonCanon (rows.getD i []) ∈
        s2 ++ (rows.take i).map jsonCanon))).length := by
  congr 1
  apply List.filter_congr
  intro i _
  apply decide_eq_decide.mpr
  constructor
  · intro hm
    rcases List.mem_append.mp hm with hm | hm
    · exact List.mem_append.mpr (Or.inl ((h _).mp hm))
    · exact List.mem_append.mpr (Or.inr hm)
  · intro hm
    rcases List.mem_append.mp hm with hm | hm
    · exact List.mem_append.mpr (Or.inl ((h _).mpr hm))
    · exact List.mem_append.mpr (Or.inr hm)

/-- The duplicate-scan fold counts exactly the rows whose serialization
occurs in the initial seen-set or among the serializations of earlier
rows. -/
theorem dupFold_count (rows : List DataRow) :
    ∀ (seen : List (List (String × Cell))) (k : ℕ),
      (rows.foldl dupStep (k, seen)).1 =
        k + ((List.range rows.length).filter
          (fun i => decide (jsonCanon (rows.getD i []) ∈
            seen ++ (rows.take i).map jsonCanon))).length := by
  induction rows with
  | nil =>
    intro seen k
    simp
  | cons r rest ih =>
    intro seen k
    have hstep : dupStep (k, seen) r =
        if jsonCanon r ∈ seen then (k + 1, seen) else (k, jsonCanon r :: seen) := rfl
    have hpred0 : (fun i => decide (jsonCanon ((r :: rest).getD i []) ∈
        seen ++ ((r :: rest).take i).map jsonCanon)) 0 = decide (jsonCanon r ∈ seen) := by
      simp
    have hpredS : ∀ i : ℕ, (fun i => decide (jsonCanon ((r :: rest).getD i []) ∈
        seen ++ ((r :: rest).take i).map jsonCanon)) (i + 1) =
        (fun i => decide (jsonCanon (rest.getD i []) ∈
          (seen ++ [jsonCanon r]) ++ (rest.take i).map jsonCanon)) i := by
      intro i
      simp only [List.getD_cons_succ, List.take_succ_cons, List.map_cons]
      congr 1
      apply propext
      constructor
      · intro hm
        rcases List.mem_append.mp hm with hm | hm
        · exact List.mem_append.mpr (Or.inl (List.mem_append.mpr (Or.inl hm)))
        · rcases List.mem_cons.mp hm with hm | hm
          · exact List.mem_append.mpr (Or.inl (List.mem_append.mpr (Or.inr
              (List.mem_singleton.mpr hm))))
          · exact List.mem_append.mpr (Or.inr hm)
      · intro hm
        rcases List.mem_append.mp hm with hm | hm
        · rcases List.mem_append.mp hm with hm | hm
          · exact List.mem_append.mpr (Or.inl hm)
          · exact List.mem_append.mpr (Or.inr (List.mem_cons.mpr (Or.inl
              (List.mem_singleton.mp hm))))
        · exact List.mem_append.mpr (Or.inr (List.mem_cons.mpr (Or.inr hm)))
    rw [List.foldl_cons, hstep]
    have hrange : List.range (r :: rest).length =
        0 :: (List.range rest.length).map Nat.succ := by
      rw [List.length_cons, List.range_succ_eq_map]
    rw [hrange, List.filter_cons]
    by_cases hc : jsonCanon r ∈ seen
    · rw [if_pos hc, ih seen (k + 1)]
      have hp0 : decide (jsonCanon ((r :: rest).getD 0 []) ∈
          seen ++ ((r :: rest).take 0).map jsonCanon) = true := by
        simpa using hc
      rw [hp0]
      simp only [eq_self_iff_true, if_true]
      have hmap : ((List.range rest.length).map Nat.succ).filter
          (fun i => decide (jsonCanon ((r :: rest).getD i []) ∈
            seen ++ ((r :: rest).take i).map jsonCanon)) =
          ((List.range rest.length).filter
            (fun i => decide (jsonCanon (rest.getD i []) ∈
              (seen ++ [jsonCanon r]) ++ (rest.take i).map jsonCanon))).map Nat.succ := by
        rw [List.filter_map]
        congr 1
        apply List.filter_congr
        intro i _
        exact hpredS i
      rw [hmap, List.length_cons, List.length_map]
      have hcongr := dupCount_seen_congr rest (seen ++ [jsonCanon r]) seen
        (fun x => by
          constructor
          · intro hx
            rcases List.mem_append.mp hx with hx | hx
            · exact hx
            · rw [List.mem_singleton.mp hx]
              exact hc
          · intro hx
            exact List.mem_append.mpr (Or.inl hx))
      rw [hcongr]
      omega
    · rw [if_neg hc, ih (jsonCanon r :: seen) k]
      have hp0 : decide (jsonCanon ((r :: rest).getD 0 []) ∈
          seen ++ ((r :: rest).take 0).map jsonCanon) = false := by
        simpa using hc
      rw [hp0]
      simp only [Bool.false_eq_true, if_false]
      have hmap : ((List.range rest.length).map Nat.succ).filter
          (fun i => decide (jsonCanon ((r :: rest).getD i []) ∈
            seen ++ ((r :: rest).take i).map jsonCanon)) =
          ((List.range rest.length).filter
            (fun i => decide (jsonCanon (rest.getD i []) ∈
              (seen ++ [jsonCanon r]) ++ (rest.take i).map jsonCanon))).map Nat.succ := by
        rw [List.filter_map]
        congr 1
        apply List.filter_congr
        intro i _
        exact hpredS i
      rw [hmap, List.length_map]
      have hcongr := dupCount_seen_congr rest (jsonCanon r :: seen) (seen ++ [jsonCanon r])
        (fun x => by
          constructor
          · intro hx
            rcases List.mem_cons.mp hx with hx | hx
            · exact List.mem_append.mpr (Or.inr (List.mem_singleton.mpr hx))
            · exact List.mem_append.mpr (Or.inl hx)
          · intro hx
            rcases List.mem_append.mp hx with hx | hx
            · exact List.mem_cons.mpr (Or.inr hx)
            · exact List.mem_cons.mpr (Or.inl (List.mem_singleton.mp hx)))
      rw [hcongr]

/-- C2 counterexample: two rows holding the same key-value mapping in
different key insertion orders canonicalize identically under the
deterministic sorted-key canonicalization the claim describes (so the claim
counts 1 duplicate), yet the source, which serializes keys in object
insertion order, counts 0. -/
theorem duplicateRows_key_order_counterexample :
    (sortedRowCanon [("a", Cell.num 1), ("b", Cell.num 2)] =
      sortedRowCanon [("b", Cell.num 2), ("a", Cell.num 1)]) ∧
    (dupSpecCount sortedRowCanon
      [[("a", Cell.num 1), ("b", Cell.num 2)], [("b", Cell.num 2), ("a", Cell.num 1)]] = 1) ∧
    (duplicateRowsCount
      [[("a", Cell.num 1), ("b", Cell.num 2)], [("b", Cell.num 2), ("a", Cell.num 1)]] = 0) := by
  refine ⟨by decide, by decide, by decide⟩

/-- C2 amended: duplicateRows counts exactly the rows whose serialization
(the row's (key, value) entries with `undefined` entries dropped, in
ECMAScript own-property order, which keeps the insertion order of
non-index keys) equals the serialization of some earlier row; the first
occurrence is never counted; a numeric 5 and the text "5" stay distinct;
and the specification's duplicate scenario counts 1. -/
theorem duplicateRows_by_serialization (data : List DataRow) :
    (duplicateRowsCount data = dupSpecCount jsonCanon data) ∧
    (duplicateRowsCount [[("a", Cell.num 1), ("b", Cell.num 2)],
      [("a", Cell.num 1), ("b", Cell.num 2)], [("a", Cell.num 3), ("b", Cell.num 4)]] = 1) ∧
    (duplicateRowsCount [[("a", Cell.num 5)], [("a", Cell.str "5")]] = 0) := by
  refine ⟨?_, by decide, by decide⟩
  unfold duplicateRowsCount dupSpecCount
  rw [dupFold_count data [] 0]
  simp

/-! ### Claim C3: outlier detection -/

/-- C3 counterexample: `dateOutlierColumn` has numeric non-missing values
whose numeric sub-sequence contains exactly one value outside the claimed
IQR bounds, yet the analysis types the column Date, computes no numeric
stats and emits no outlier issue, against the claim's quantification over
every column with at least one numeric non-missing value. -/
theorem outlier_issue_counterexample :
    (0 < numCountOf dateOutlierColumn) ∧
    (numericOf dateOutlierColumn = [0, 100, 100, 100]) ∧
    (outlierRuleSpec [0, 100, 100, 100] = 1) ∧
    ((analyzeValues "c" dateOutlierColumn).numericStats = none) ∧
    ("Potential Outliers (1)" ∉ (analyzeValues "c" dateOutlierColumn).issues) := by
  refine ⟨by decide, by decide, ?_, by decide, by decide⟩
  have hsort : List.insertionSort (fun a b => a ≤ b) ([0, 100, 100, 100] : List ℚ) =
      [0, 100, 100, 100] := by decide
  unfold outlierRuleSpec
  rw [hsort]
  norm_num [List.filter, List.getD, List.get?]

/-- C3 amended: for every column with at least one numeric non-missing value
whose inferred type is not Date, numeric stats are computed, their outlier
count follows the nearest-rank IQR rule of the claim, and the outlier issue
is appended exactly when that count is positive; for the column
[1,2,3,4,5,100] the outlier count is 1 and the issue is present. -/
theorem outlier_issue_characterization (name : String) (values : List Cell)
    (hnum : 0 < numCountOf values) (hdate : (analyzeValues name values).type ≠ "Date") :
    (∃ s : NumericStats, (analyzeValues name values).numericStats = some s ∧
      s.outliers = outlierRuleSpec (numericOf values) ∧
      ("Potential Outliers (" ++ Nat.repr (outlierRuleSpec (numericOf values)) ++ ")" ∈
          (analyzeValues name values).issues ↔ 0 < outlierRuleSpec (numericOf values))) ∧
    (∃ s : NumericStats,
      (analyzeValues "c" [Cell.num 1, Cell.num 2, Cell.num 3, Cell.num 4, Cell.num 5,
        Cell.num 100]).numericStats = some s ∧ s.outliers = 1) ∧
    ("Potential Outliers (1)" ∈
      (analyzeValues "c" [Cell.num 1, Cell.num 2, Cell.num 3, Cell.num 4, Cell.num 5,
        Cell.num 100]).issues) := by
  have hnumlen : 0 < (numericOf values).length := by
    rw [numericOf_length]
    exact hnum
  have htype : inferredType values = "Numeric" ∨
      (inferredType values = "Mixed" ∧ 0 < numCountOf values) := by
    by_cases c1 : 0 < numCountOf values ∧ strCountOf values = 0
    · left
      unfold inferredType
      rw [if_pos c1]
    · by_cases c2 : dateThreshold (nonNullOf values).length (dateCountOf values)
      · exfalso
        apply hdate
        show inferredType values = "Date"
        unfold inferredType
        rw [if_neg c1, if_pos c2]
      · right
        have hstr : 0 < strCountOf values := by
          rcases Nat.eq_zero_or_pos (strCountOf values) with h0 | hpos
          · exact absurd ⟨hnum, h0⟩ c1
          · exact hpos
        refine ⟨?_, hnum⟩
        unfold inferredType
        rw [if_neg c1, if_neg c2, if_pos ⟨hnum, hstr⟩]
  have hseed : seedIssues values = [] ∨
      seedIssues values = ["Mixed Data Types (Numbers & Text)"] := by
    unfold seedIssues
    by_cases c1 : 0 < numCountOf values ∧ strCountOf values = 0
    · left
      rw [if_pos c1]
    · by_cases c2 : dateThreshold (nonNullOf values).length (dateCountOf values)
      · exfalso
        apply hdate
        show inferredType values = "Date"
        unfold inferredType
        rw [if_neg c1, if_pos c2]
      · by_cases c3 : 0 < numCountOf values ∧ 0 < strCountOf values
        · right
          rw [if_neg c1, if_neg c2, if_pos c3]
        · left
          rw [if_neg c1, if_neg c2, if_neg c3]
  have hns : ∃ s : NumericStats, numericStatsOf values = some s ∧
      s.outliers = outlierRuleSpec (numericOf values) := by
    unfold numericStatsOf
    rw [if_pos htype, if_pos hnumlen]
    exact ⟨_, rfl, rfl⟩
  rcases hns with ⟨s, hns, hout⟩
  have hissues : (analyzeValues name values).issues =
      seedIssues values ++ outlierIssueOf values := rfl
  have houtIssue : outlierIssueOf values =
      if 0 < s.outliers then ["Potential Outliers (" ++ Nat.repr s.outliers ++ ")"] else [] := by
    unfold outlierIssueOf
    rw [hns]
  have hmain : ∃ s2 : NumericStats, (analyzeValues name values).numericStats = some s2 ∧
      s2.outliers = outlierRuleSpec (numericOf values) ∧
      ("Potential Outliers (" ++ Nat.repr (outlierRuleSpec (numericOf values)) ++ ")" ∈
          (analyzeValues name values).issues ↔ 0 < outlierRuleSpec (numericOf values)) := by
    refine ⟨s, hns, hout, ?_⟩
    rw [hissues, houtIssue, ← hout]
    by_cases hpos : 0 < s.outliers
    · rw [if_pos hpos]
      constructor
      · intro _
        exact hpos
      · intro _
        exact List.mem_append.mpr (Or.inr (List.mem_singleton.mpr rfl))
    · rw [if_neg hpos]
      constructor
      · intro hmem
        rw [List.append_nil] at hmem
        rcases hseed with h0 | h0
        · rw [h0] at hmem
          exact absurd hmem (List.not_mem_nil _)
        · rw [h0] at hmem
          exact absurd (List.mem_singleton.mp hmem) (outlierIssue_ne_mixed s.outliers)
      · intro hp
        exact absurd hp hpos
  have hrule6 : outlierRuleSpec [1, 2, 3, 4, 5, 100] = 1 := by
    have hsort : List.insertionSort (fun a b => a ≤ b) ([1, 2, 3, 4, 5, 100] : List ℚ) =
        [1, 2, 3, 4, 5, 100] := by decide
    unfold outlierRuleSpec
    rw [hsort]
    norm_num [List.filter, List.getD, List.get?]
  have hns6 : ∃ s6 : NumericStats,
      numericStatsOf [Cell.num 1, Cell.num 2, Cell.num 3, Cell.num 4, Cell.num 5,
        Cell.num 100] = some s6 ∧
      s6.outliers = outlierRuleSpec (numericOf [Cell.num 1, Cell.num 2, Cell.num 3,
        Cell.num 4, Cell.num 5, Cell.num 100]) := by
    unfold numericStatsOf
    rw [if_pos (Or.inl (by decide)), if_pos (by decide)]
    exact ⟨_, rfl, rfl⟩
  have hnum6 : numericOf [Cell.num 1, Cell.num 2, Cell.num 3, Cell.num 4, Cell.num 5,
      Cell.num 100] = [1, 2, 3, 4, 5, 100] := by decide
  rcases hns6 with ⟨s6, hns6, hout6⟩
  have hs6val : s6.outliers = 1 := by
    rw [hout6, hnum6, hrule6]
  refine ⟨hmain, ⟨s6, hns6, hs6val⟩, ?_⟩
  have hseed6 : seedIssues [Cell.num 1, Cell.num 2, Cell.num 3, Cell.num 4, Cell.num 5,
      Cell.num 100] = [] := by decide
  have hiss6 : (analyzeValues "c" [Cell.num 1, Cell.num 2, Cell.num 3, Cell.num 4,
      Cell.num 5, Cell.num 100]).issues =
      seedIssues [Cell.num 1, Cell.num 2, Cell.num 3, Cell.num 4, Cell.num 5, Cell.num 100] ++
        outlierIssueOf [Cell.num 1, Cell.num 2, Cell.num 3, Cell.num 4, Cell.num 5,
          Cell.num 100] := rfl
  have hout6i : outlierIssueOf [Cell.num 1, Cell.num 2, Cell.num 3, Cell.num 4, Cell.num 5,
      Cell.num 100] = ["Potential Outliers (1)"] := by
    unfold outlierIssueOf
    rw [hns6]
    dsimp only
    rw [hs6val]
    rfl
  rw [hiss6, hseed6, hout6i]
  exact List.mem_singleton.mpr rfl

/-- Witness for the amended outlier claim at a concrete numeric column. -/
theorem outlier_issue_characterization_witness :
    ∃ s : NumericStats,
      (analyzeValues "w" [Cell.num 1, Cell.num 2, Cell.num 3, Cell.num 4, Cell.num 5,
        Cell.num 100]).numericStats = some s ∧
      s.outliers = outlierRuleSpec (numericOf [Cell.num 1, Cell.num 2, Cell.num 3,
        Cell.num 4, Cell.num 5, Cell.num 100]) ∧
      ("Potential Outliers (" ++ Nat.repr (outlierRuleSpec (numericOf [Cell.num 1,
          Cell.num 2, Cell.num 3, Cell.num 4, Cell.num 5, Cell.num 100])) ++ ")" ∈
          (analyzeValues "w" [Cell.num 1, Cell.num 2, Cell.num 3, Cell.num 4, Cell.num 5,
            Cell.num 100]).issues ↔
        0 < outlierRuleSpec (numericOf [Cell.num 1, Cell.num 2, Cell.num 3, Cell.num 4,
          Cell.num 5, Cell.num 100])) :=
  (outlier_issue_characterization "w"
    [Cell.num 1, Cell.num 2, Cell.num 3, Cell.num 4, Cell.num 5, Cell.num 100]
    (by decide) (by decide)).1

/-! ### Claim C4: mode computation -/

theorem nat_beq_eq_decide (a b : ℕ) : (a == b) = decide (a = b) := by
  by_cases h : a = b <;> simp [h]

theorem mem_keysFE_foldl (l : List String) :
    ∀ (acc : List String) (k : String),
      (k ∈ l.foldl (fun acc2 k2 => if k2 ∈ acc2 then acc2 else acc2 ++ [k2]) acc ↔
        k ∈ acc ∨ k ∈ l) := by
  induction l with
  | nil =>
    intro acc k
    simp
  | cons a t ih =>
    intro acc k
    rw [List.foldl_cons, ih]
    by_cases ha : a ∈ acc
    · rw [if_pos ha]
      simp only [List.mem_cons]
      constructor
      · rintro (h | h)
        · exact Or.inl h
        · exact Or.inr (Or.inr h)
      · rintro (h | h | h)
        · exact Or.inl h
        · exact Or.inl (h ▸ ha)
        · exact Or.inr h
    · rw [if_neg ha]
      simp only [List.mem_append, List.mem_cons, List.not_mem_nil, or_false]
      tauto

theorem mem_keysFE (values : List Cell) (k : String) :
    k ∈ keysFE values ↔ k ∈ values.map cellToString := by
  unfold keysFE
  rw [mem_keysFE_foldl]
  simp

theorem nodup_keysFE_foldl (l : List String) :
    ∀ acc : List String, acc.Nodup →
      (l.foldl (fun acc2 k2 => if k2 ∈ acc2 then acc2 else acc2 ++ [k2]) acc).Nodup := by
  induction l with
  | nil =>
    intro acc h
    exact h
  | cons a t ih =>
    intro acc h
    rw [List.foldl_cons]
    by_cases ha : a ∈ acc
    · rw [if_pos ha]
      exact ih acc h
    · rw [if_neg ha]
      apply ih
      rw [List.nodup_append]
      exact ⟨h, List.nodup_singleton a, by simpa using ha⟩

theorem nodup_keysFE (values : List Cell) : (keysFE values).Nodup :=
  nodup_keysFE_foldl _ [] List.nodup_nil

theorem keysFE_append (vs : List Cell) (v : Cell) :
    keysFE (vs ++ [v]) =
      if cellToString v ∈ keysFE vs then keysFE vs else keysFE vs ++ [cellToString v] := by
  unfold keysFE
  rw [List.map_append, List.foldl_append]
  rfl

theorem freqOf_append (vs : List Cell) (v : Cell) (k : String) :
    freqOf (vs ++ [v]) k = freqOf vs k + if cellToString v = k then 1 else 0 := by
  unfold freqOf
  rw [List.countP_append]
  congr 1
  by_cases h : cellToString v = k <;> simp [List.countP_cons, h]

theorem freqOf_eq_zero_of_not_mem (values : List Cell) (k : String)
    (h : k ∉ keysFE values) : freqOf values k = 0 := by
  rw [mem_keysFE] at h
  unfold freqOf
  rw [List.countP_eq_zero]
  intro v hv
  simp only [decide_eq_true_eq]
  intro hk
  exact h (hk ▸ List.mem_map_of_mem cellToString hv)

theorem lookup_map_pairs (f : String → ℕ) (k : String) :
    ∀ keys : List String, k ∈ keys →
      List.lookup k (keys.map (fun k2 => (k2, f k2))) = some (f k) := by
  intro keys
  induction keys with
  | nil =>
    intro h
    exact absurd h (List.not_mem_nil k)
  | cons a t ih =>
    intro h
    rw [List.map_cons, List.lookup_cons]
    by_cases ha : k = a
    · subst ha
      simp
    · have : (k == a) = false := by simpa using ha
      rw [this]
      rcases List.mem_cons.mp h with h2 | h2
      · exact absurd h2 ha
      · exact ih h2

theorem lookupCount_pairs (f : String → ℕ) (k : String) (keys : List String)
    (hk : k ∈ keys) :
    lookupCount (keys.map (fun k2 => (k2, f k2))) k = f k := by
  unfold lookupCount
  rw [lookup_map_pairs f k keys hk]
  rfl

theorem bumpCount_mem (f : String → ℕ) (key : String) :
    ∀ keys : List String, keys.Nodup → key ∈ keys →
      bumpCount (keys.map (fun k => (k, f k))) key =
        keys.map (fun k => (k, if k = key then f k + 1 else f k)) := by
  intro keys
  induction keys with
  | nil =>
    intro _ h
    exact absurd h (List.not_mem_nil key)
  | cons a t ih =>
    intro hnd hmem
    rw [List.map_cons, List.map_cons]
    unfold bumpCount
    by_cases ha : a = key
    · rw [if_pos ha]
      subst ha
      have hat : a ∉ t := (List.nodup_cons.mp hnd).1
      rw [if_pos rfl]
      congr 1
      apply List.map_congr_left
      intro k hk
      have : ¬(k = a) := fun hka => hat (hka ▸ hk)
      rw [if_neg this]
    · rw [if_neg ha, if_neg ha]
      congr 1
      apply ih (List.nodup_cons.mp hnd).2
      rcases List.mem_cons.mp hmem with h2 | h2
      · exact absurd h2.symm ha
      · exact h2

theorem bumpCount_not_mem (f : String → ℕ) (key : String) :
    ∀ keys : List String, key ∉ keys →
      bumpCount (keys.map (fun k => (k, f k))) key =
        keys.map (fun k => (k, f k)) ++ [(key, 1)] := by
  intro keys
  induction keys with
  | nil =>
    intro _
    rfl
  | cons a t ih =>
    intro hmem
    rw [List.map_cons]
    unfold bumpCount
    have ha : ¬(a = key) := fun h => hmem (List.mem_cons.mpr (Or.inl h.symm))
    rw [if_neg ha]
    rw [ih (fun h => hmem (List.mem_cons.mpr (Or.inr h)))]
    rfl

theorem foldl_max_split (L : List ℕ) : ∀ a : ℕ, L.foldl max a = max a (L.foldl max 0) := by
  induction L with
  | nil =>
    intro a
    simp
  | cons x t ih =>
    intro a
    rw [List.foldl_cons, List.foldl_cons, ih (max a x), ih (max 0 x)]
    omega

theorem foldl_max_bump (key : String) (f f2 : String → ℕ) :
    ∀ keys : List String, keys.Nodup → key ∈ keys →
      (∀ k ∈ keys, f2 k = if k = key then f k + 1 else f k) →
      (keys.map f2).foldl max 0 = max ((keys.map f).foldl max 0) (f key + 1) := by
  intro keys
  induction keys with
  | nil =>
    intro _ h _
    exact absurd h (List.not_mem_nil key)
  | cons a t ih =>
    intro hnd hmem hf2
    rw [List.map_cons, List.map_cons, List.foldl_cons, List.foldl_cons,
      foldl_max_split _ (max 0 (f2 a)), foldl_max_split _ (max 0 (f a))]
    by_cases ha : a = key
    · subst ha
      have hat : a ∉ t := (List.nodup_cons.mp hnd).1
      have hfa : f2 a = f a + 1 := by
        rw [hf2 a (List.mem_cons.mpr (Or.inl rfl)), if_pos rfl]
      have heq : t.map f2 = t.map f := by
        apply List.map_congr_left
        intro k hk
        rw [hf2 k (List.mem_cons.mpr (Or.inr hk))]
        have hka2 : ¬(k = a) := fun hka => hat (hka ▸ hk)
        rw [if_neg hka2]
      rw [heq, hfa]
      omega
    · have hmem2 : key ∈ t := by
        rcases List.mem_cons.mp hmem with h2 | h2
        · exact absurd h2.symm ha
        · exact h2
      have hfa : f2 a = f a := by
        rw [hf2 a (List.mem_cons.mpr (Or.inl rfl)), if_neg ha]
      rw [ih (List.nodup_cons.mp hnd).2 hmem2
        (fun k hk => hf2 k (List.mem_cons.mpr (Or.inr hk))), hfa]
      omega

/-- The counts object and running maximum built by the source fold are the
first-encountered key list paired with the key frequencies, and the maximum
frequency. -/
theorem modeFold_eq (values : List Cell) :
    values.foldl modeStep ([], 0) =
      ((keysFE values).map (fun k => (k, freqOf values k)), maxFreqSpec values) := by
  induction values using List.reverseRecOn with
  | nil => rfl
  | append_singleton vs v ih =>
    rw [List.foldl_append, ih, List.foldl_cons, List.foldl_nil]
    have hfreq : ∀ k ∈ keysFE vs, freqOf (vs ++ [v]) k =
        if k = cellToString v then freqOf vs k + 1 else freqOf vs k := by
      intro k _
      rw [freqOf_append]
      by_cases h : k = cellToString v
      · rw [if_pos h, if_pos h.symm]
      · rw [if_neg h, if_neg (fun h2 => h h2.symm)]
        omega
    by_cases hmem : cellToString v ∈ keysFE vs
    · have hkeys : keysFE (vs ++ [v]) = keysFE vs := by
        rw [keysFE_append, if_pos hmem]
      have hbump : bumpCount ((keysFE vs).map (fun k => (k, freqOf vs k))) (cellToString v) =
          (keysFE vs).map (fun k => (k, freqOf (vs ++ [v]) k)) := by
        rw [bumpCount_mem (freqOf vs) (cellToString v) (keysFE vs) (nodup_keysFE vs) hmem]
        apply List.map_congr_left
        intro k hk
        rw [hfreq k hk]
      have hlook : lookupCount ((keysFE vs).map (fun k => (k, freqOf (vs ++ [v]) k)))
          (cellToString v) = freqOf (vs ++ [v]) (cellToString v) :=
        lookupCount_pairs _ _ _ hmem
      have hfv : freqOf (vs ++ [v]) (cellToString v) = freqOf vs (cellToString v) + 1 := by
        rw [freqOf_append, if_pos rfl]
      have hmax : maxFreqSpec (vs ++ [v]) =
          max (maxFreqSpec vs) (freqOf vs (cellToString v) + 1) := by
        unfold maxFreqSpec
        rw [hkeys]
        rw [foldl_max_bump (cellToString v) (freqOf vs) (freqOf (vs ++ [v])) (keysFE vs)
          (nodup_keysFE vs) hmem hfreq]
      unfold modeStep
      dsimp only
      rw [hbump, hlook, hkeys, hmax, hfv]
      congr 1
      by_cases hlt : maxFreqSpec vs < freqOf vs (cellToString v) + 1
      · rw [if_pos hlt]
        omega
      · rw [if_neg hlt]
        omega
    · have hkeys : keysFE (vs ++ [v]) = keysFE vs ++ [cellToString v] := by
        rw [keysFE_append, if_neg hmem]
      have hfv : freqOf (vs ++ [v]) (cellToString v) = 1 := by
        rw [freqOf_append, if_pos rfl, freqOf_eq_zero_of_not_mem vs _ hmem]
      have hbump : bumpCount ((keysFE vs).map (fun k => (k, freqOf vs k))) (cellToString v) =
          (keysFE vs ++ [cellToString v]).map (fun k => (k, freqOf (vs ++ [v]) k)) := by
        rw [bumpCount_not_mem (freqOf vs) (cellToString v) (keysFE vs) hmem]
        rw [List.map_append]
        congr 1
        · apply List.map_congr_left
          intro k hk
          rw [hfreq k hk]
          have : ¬(k = cellToString v) := fun h => hmem (h ▸ hk)
          rw [if_neg this]
        · rw [List.map_singleton, hfv]
      have hlook : lookupCount ((keysFE vs ++ [cellToString v]).map
          (fun k => (k, freqOf (vs ++ [v]) k))) (cellToString v) =
          freqOf (vs ++ [v]) (cellToString v) :=
        lookupCount_pairs _ _ _ (List.mem_append.mpr (Or.inr (List.mem_singleton.mpr rfl)))
      have hmax : maxFreqSpec (vs ++ [v]) = max (maxFreqSpec vs) 1 := by
        unfold maxFreqSpec
        rw [hkeys, List.map_append, List.foldl_append, List.map_singleton, List.foldl_cons,
          List.foldl_nil, hfv]
        congr 1
        congr 1
        apply List.map_congr_left
        intro k hk
        rw [hfreq k hk]
        have : ¬(k = cellToString v) := fun h => hmem (h ▸ hk)
        rw [if_neg this]
      unfold modeStep
      dsimp only
      rw [hbump, hlook, hkeys, hmax, hfv]
      congr 1
      by_cases hlt : maxFreqSpec vs < 1
      · rw [if_pos hlt]
        omega
      · rw [if_neg hlt]
        omega

theorem map_fst_pairs (f : String → ℕ) (keys : List String) :
    (keys.map (fun k => (k, f k))).map Prod.fst = keys := by
  induction keys with
  | nil => rfl
  | cons a t ih =>
    rw [List.map_cons, List.map_cons, ih]

theorem mem_jsKeyOrder (keys : List String) (k : String) (h : k ∈ jsKeyOrder keys) :
    k ∈ keys := by
  unfold jsKeyOrder at h
  rcases List.mem_append.mp h with h | h
  · exact (List.mem_filter.mp ((List.mem_insertionSort _).mp h)).1
  · exact (List.mem_filter.mp h).1

/-- The source mode equals the specification-side mode with ECMAScript key
ordering. -/
theorem getMode_eq_modeSpecJS (values : List Cell) :
    getMode values = modeSpecJS values := by
  unfold getMode modeSpecJS
  by_cases hne : values.isEmpty
  · rw [if_pos hne]
    have hnil : values = [] := List.isEmpty_iff.mp hne
    subst hnil
    rfl
  · rw [if_neg hne, modeFold_eq values]
    dsimp only
    rw [map_fst_pairs]
    congr 1
    congr 1
    apply List.filter_congr
    intro k hk
    have hkk : k ∈ keysFE values := mem_jsKeyOrder _ _ hk
    rw [lookupCount_pairs (freqOf values) k _ hkk, nat_beq_eq_decide]

/-- C4 counterexample: on the input [2, 2, 1, 1] the source mode is [1, 2]
(integer-like grouping keys are enumerated in ascending numeric order), not
the first-encountered tie order [2, 1] the claim states. -/
theorem mode_order_counterexample :
    (getMode [Cell.num 2, Cell.num 2, Cell.num 1, Cell.num 1] = [Cell.num 1, Cell.num 2]) ∧
    (modeSpecFE [Cell.num 2, Cell.num 2, Cell.num 1, Cell.num 1] =
      [Cell.num 2, Cell.num 1]) ∧
    (getMode [Cell.num 2, Cell.num 2, Cell.num 1, Cell.num 1] ≠
      modeSpecFE [Cell.num 2, Cell.num 2, Cell.num 1, Cell.num 1]) :=
  ⟨by decide, by decide, by decide⟩

/-- C4 amended: for every non-empty input, the mode groups values by string
representation, finds the maximum frequency, and returns up to the first 3
distinct values attaining it — tied keys enumerated in ECMAScript object key
order (integer-like keys ascending first, then first-encountered order) —
each converted back to a number when it parses as one; the result length is
at most 3, and the mode of [1,1,2,2,3] is [1, 2]. -/
theorem getMode_js_order (values : List Cell) (hne : values ≠ []) :
    (getMode values = modeSpecJS values) ∧
    ((getMode values).length ≤ 3) ∧
    (getMode [Cell.num 1, Cell.num 1, Cell.num 2, Cell.num 2, Cell.num 3] =
      [Cell.num 1, Cell.num 2]) := by
  refine ⟨getMode_eq_modeSpecJS values, ?_, by decide⟩
  unfold getMode
  by_cases h : values.isEmpty
  · rw [if_pos h]
    simp
  · rw [if_neg h]
    exact List.length_take_le 3 _

/-- Witness for the amended mode claim at the concrete column [1,1,2,2,3]. -/
theorem getMode_js_order_witness :
    (getMode [Cell.num 1, Cell.num 1, Cell.num 2, Cell.num 2, Cell.num 3] =
      modeSpecJS [Cell.num 1, Cell.num 1, Cell.num 2, Cell.num 2, Cell.num 3]) ∧
    ((getMode [Cell.num 1, Cell.num 1, Cell.num 2, Cell.num 2, Cell.num 3]).length ≤ 3) ∧
    (getMode [Cell.num 1, Cell.num 1, Cell.num 2, Cell.num 2, Cell.num 3] =
      [Cell.num 1, Cell.num 2]) :=
  getMode_js_order [Cell.num 1, Cell.num 1, Cell.num 2, Cell.num 2, Cell.num 3] (by decide)

/-! ### Claim C5: date statistics -/

theorem length_filter_le_length_filterMap {α β : Type} (p : α → Bool) (f : α → Option β)
    (l : List α) (h : ∀ a, p a = true → (f a).isSome = true) :
    (l.filter p).length ≤ (l.filterMap f).length := by
  induction l with
  | nil => simp
  | cons a t ih =>
    by_cases hp : p a
    · have hs : (f a).isSome = true := h a hp
      rcases Option.isSome_iff_exists.mp hs with ⟨b, hb⟩
      rw [List.filter_cons_of_pos hp, List.filterMap_cons, hb]
      simpa using ih
    · rw [List.filter_cons_of_neg hp, List.filterMap_cons]
      rcases f a with _ | b
      · exact ih
      · exact le_trans ih (by simp)

/-- A date-looking value always yields a parsed date. -/
theorem isDateLike_isSome (v : Cell) (h : isDateLike v = true) :
    (jsNewDate v).isSome = true := by
  cases v with
  | str s =>
    unfold isDateLike at h
    rw [Bool.and_eq_true] at h
    exact h.1
  | num q => simp [isDateLike] at h
  | null => simp [isDateLike] at h
  | undef => simp [isDateLike] at h

/-- A Date-typed column satisfied the threshold and so has at least one
date-looking value. -/
theorem inferredType_date_elim (values : List Cell)
    (h : inferredType values = "Date") :
    dateThreshold (nonNullOf values).length (dateCountOf values) := by
  unfold inferredType at h
  by_cases c1 : 0 < numCountOf values ∧ strCountOf values = 0
  · rw [if_pos c1] at h
    exact absurd h (by decide)
  · rw [if_neg c1] at h
    by_cases c2 : dateThreshold (nonNullOf values).length (dateCountOf values)
    · exact c2
    · rw [if_neg c2] at h
      by_cases c3 : 0 < numCountOf values ∧ 0 < strCountOf values
      · rw [if_pos c3] at h
        exact absurd h (by decide)
      · rw [if_neg c3] at h
        exact absurd h (by decide)

/-- C5: for a Date-typed column, dateStats is present (if and only if some
non-missing text value converts to a date, which the Date threshold
guarantees), invalidCount is the non-missing count minus the parsed count,
and min/max are the chronologically earliest and latest parsed dates, each
formatted as a `YYYY-MM-DD` calendar date string. -/
theorem dateStats_characterization (name : String) (values : List Cell)
    (htype : (analyzeValues name values).type = "Date") :
    (parsedDatesOf values ≠ []) ∧
    (∃ s, Cell.str s ∈ nonNullOf values ∧ (jsDateParse s).isSome = true) ∧
    ((analyzeValues name values).dateStats.isSome = true ↔ parsedDatesOf values ≠ []) ∧
    (∃ ds : DateStats, (analyzeValues name values).dateStats = some ds ∧
      ds.invalidCount = (nonNullOf values).length - (parsedDatesOf values).length ∧
      (∃ dmin ∈ parsedDatesOf values,
        (∀ x ∈ parsedDatesOf values, ymdKey dmin ≤ ymdKey x) ∧ ds.min = formatYMD dmin) ∧
      (∃ dmax ∈ parsedDatesOf values,
        (∀ x ∈ parsedDatesOf values, ymdKey x ≤ ymdKey dmax) ∧ ds.max = formatYMD dmax)) := by
  have hdate : inferredType values = "Date" := htype
  have hthr := inferredType_date_elim values hdate
  have hdc : 1 ≤ dateCountOf values := by
    unfold dateThreshold at hthr
    omega
  have hle : dateCountOf values ≤ (parsedDatesOf values).length := by
    unfold dateCountOf parsedDatesOf
    exact length_filter_le_length_filterMap isDateLike jsNewDate (nonNullOf values)
      isDateLike_isSome
  have hne : parsedDatesOf values ≠ [] := by
    intro hnil
    rw [hnil] at hle
    simp at hle
    omega
  have hpos : 0 < (List.insertionSort (fun a b => ymdKey a ≤ ymdKey b)
      (parsedDatesOf values)).length := by
    rw [List.length_insertionSort]
    exact List.length_pos.mpr hne
  have hds : (analyzeValues name values).dateStats =
      some { min := formatYMD ((List.insertionSort (fun a b => ymdKey a ≤ ymdKey b)
                (parsedDatesOf values)).getD 0 ⟨0, 0, 0⟩),
             max := formatYMD ((List.insertionSort (fun a b => ymdKey a ≤ ymdKey b)
                (parsedDatesOf values)).getD
                  ((List.insertionSort (fun a b => ymdKey a ≤ ymdKey b)
                    (parsedDatesOf values)).length - 1) ⟨0, 0, 0⟩),
             invalidCount := (nonNullOf values).length -
                (List.insertionSort (fun a b => ymdKey a ≤ ymdKey b)
                  (parsedDatesOf values)).length } := by
    show dateStatsOf values = _
    unfold dateStatsOf
    rw [if_pos hdate, if_pos hpos]
  have hstr : ∃ s, Cell.str s ∈ nonNullOf values ∧ (jsDateParse s).isSome = true := by
    rcases List.exists_mem_of_ne_nil _ hne with ⟨d, hd⟩
    rcases List.mem_filterMap.mp hd with ⟨v, hv, hfv⟩
    cases v with
    | str s => exact ⟨s, hv, by rw [show jsDateParse s = jsNewDate (Cell.str s) from rfl, hfv]; rfl⟩
    | num q => exact absurd hfv (by simp [jsNewDate])
    | null => exact absurd hfv (by simp [jsNewDate])
    | undef => exact absurd hfv (by simp [jsNewDate])
  refine ⟨hne, hstr, ?_, ?_⟩
  · rw [hds]
    simp [hne]
  · refine ⟨_, hds, ?_, ?_, ?_⟩
    · rw [List.length_insertionSort]
    · exact ⟨_, insertionSort_getD_zero_mem _ _ _ hne,
        fun x hx => insertionSort_head_rel (fun a b => ymdKey a ≤ ymdKey b)
          (parsedDatesOf values) ⟨0, 0, 0⟩ x hx, rfl⟩
    · exact ⟨_, insertionSort_getD_last_mem _ _ _ hne,
        fun x hx => insertionSort_last_rel (fun a b => ymdKey a ≤ ymdKey b)
          (parsedDatesOf values) ⟨0, 0, 0⟩ x hx, rfl⟩

/-- Witness for C5 at a concrete two-value date column. -/
theorem dateStats_characterization_witness :
    ∃ ds : DateStats,
      (analyzeValues "d" [Cell.str "2023-01-01", Cell.str "2023-02-01"]).dateStats = some ds ∧
      ds.invalidCount = (nonNullOf [Cell.str "2023-01-01", Cell.str "2023-02-01"]).length -
        (parsedDatesOf [Cell.str "2023-01-01", Cell.str "2023-02-01"]).length ∧
      (∃ dmin ∈ parsedDatesOf [Cell.str "2023-01-01", Cell.str "2023-02-01"],
        (∀ x ∈ parsedDatesOf [Cell.str "2023-01-01", Cell.str "2023-02-01"],
          ymdKey dmin ≤ ymdKey x) ∧ ds.min = formatYMD dmin) ∧
      (∃ dmax ∈ parsedDatesOf [Cell.str "2023-01-01", Cell.str "2023-02-01"],
        (∀ x ∈ parsedDatesOf [Cell.str "2023-01-01", Cell.str "2023-02-01"],
          ymdKey x ≤ ymdKey dmax) ∧ ds.max = formatYMD dmax) :=
  (dateStats_characterization "d" [Cell.str "2023-01-01", Cell.str "2023-02-01"]
    (by decide)).2.2.2

/-! ### Claim C8: q1 ≤ median ≤ q3 -/

/-- Entries of an ascending insertion sort are monotone in the index. -/
theorem insertionSort_getD_le_getD (l : List ℚ) (i j : ℕ) (hij : i ≤ j)
    (hj : j < (List.insertionSort (· ≤ ·) l).length) :
    (List.insertionSort (· ≤ ·) l).getD i 0 ≤ (List.insertionSort (· ≤ ·) l).getD j 0 := by
  have hi : i < (List.insertionSort (· ≤ ·) l).length := lt_of_le_of_lt hij hj
  rw [List.getD_eq_getElem _ _ hi, List.getD_eq_getElem _ _ hj]
  have h := (List.sorted_insertionSort (· ≤ ·) l).rel_get_of_le
    (Fin.mk_le_mk.mpr hij : (⟨i, hi⟩ : Fin _) ≤ ⟨j, hj⟩)
  simpa using h

/-- On any nonempty list of rationals, the nearest-rank `q1` is at most the
median, which is at most the nearest-rank `q3`. -/
theorem q1_le_median_le_q3 (l : List ℚ) (h : 1 ≤ l.length) :
    (List.insertionSort (· ≤ ·) l).getD ((List.insertionSort (· ≤ ·) l).length / 4) 0 ≤
        getMedian l ∧
      getMedian l ≤
        (List.insertionSort (· ≤ ·) l).getD
          (3 * (List.insertionSort (· ≤ ·) l).length / 4) 0 := by
  have hlen : (List.insertionSort (· ≤ ·) l).length = l.length :=
    List.length_insertionSort _ _
  have hne : ¬(l.length = 0) := by omega
  unfold getMedian
  rw [if_neg hne]
  dsimp only
  by_cases hodd : (List.insertionSort (· ≤ ·) l).length % 2 ≠ 0
  · rw [if_pos hodd]
    constructor
    · exact insertionSort_getD_le_getD l _ _ (by omega) (by omega)
    · exact insertionSort_getD_le_getD l _ _ (by omega) (by omega)
  · rw [if_neg hodd]
    have h1 : (List.insertionSort (· ≤ ·) l).getD
        ((List.insertionSort (· ≤ ·) l).length / 4) 0 ≤
        (List.insertionSort (· ≤ ·) l).getD
          ((List.insertionSort (· ≤ ·) l).length / 2 - 1) 0 :=
      insertionSort_getD_le_getD l _ _ (by omega) (by omega)
    have h2 : (List.insertionSort (· ≤ ·) l).getD
        ((List.insertionSort (· ≤ ·) l).length / 2 - 1) 0 ≤
        (List.insertionSort (· ≤ ·) l).getD
          ((List.insertionSort (· ≤ ·) l).length / 2) 0 :=
      insertionSort_getD_le_getD l _ _ (by omega) (by omega)
    have h3 : (List.insertionSort (· ≤ ·) l).getD
        ((List.insertionSort (· ≤ ·) l).length / 2) 0 ≤
        (List.insertionSort (· ≤ ·) l).getD
          (3 * (List.insertionSort (· ≤ ·) l).length / 4) 0 :=
      insertionSort_getD_le_getD l _ _ (by omega) (by omega)
    constructor
    · linarith
    · linarith

/-- C8: for every Numeric column with at least 2 numeric values, the
computed quartiles and median satisfy `q1 ≤ median ≤ q3` (with the median
stored as `q2`). -/
theorem quartiles_order (data : List DataRow) (column : String)
    (htype : (calculateColumnStats data column).type = "Numeric")
    (hlen : 2 ≤ (numericOf (colValues data column)).length) :
    ∃ qs : Quartiles, (calculateColumnStats data column).quartiles = some qs ∧
      (calculateColumnStats data column).median = some qs.q2 ∧
      qs.q1 ≤ qs.q2 ∧ qs.q2 ≤ qs.q3 := by
  by_cases h : isNumericCol (colValues data column)
  · have hq : (calculateColumnStats data column).quartiles =
        some ⟨(List.insertionSort (· ≤ ·) (numericOf (colValues data column))).getD
            ((List.insertionSort (· ≤ ·) (numericOf (colValues data column))).length / 4) 0,
          getMedian (numericOf (colValues data column)),
          (List.insertionSort (· ≤ ·) (numericOf (colValues data column))).getD
            (3 * (List.insertionSort (· ≤ ·) (numericOf (colValues data column))).length / 4)
            0⟩ := by
      simp [calculateColumnStats, h]
    have hm : (calculateColumnStats data column).median =
        some (getMedian (numericOf (colValues data column))) := by
      simp [calculateColumnStats, h]
    have hcore := q1_le_median_le_q3 (numericOf (colValues data column)) (by omega)
    exact ⟨_, hq, hm, hcore.1, hcore.2⟩
  · exact absurd htype (by simp [calculateColumnStats, h])

/-- Witness for C8 at a concrete three-value numeric column. -/
theorem quartiles_order_witness :
    ∃ qs : Quartiles,
      (calculateColumnStats [[("a", Cell.num 3)], [("a", Cell.num 1)], [("a", Cell.num 2)]]
          "a").quartiles = some qs ∧
      (calculateColumnStats [[("a", Cell.num 3)], [("a", Cell.num 1)], [("a", Cell.num 2)]]
          "a").median = some qs.q2 ∧
      qs.q1 ≤ qs.q2 ∧ qs.q2 ≤ qs.q3 :=
  quartiles_order [[("a", Cell.num 3)], [("a", Cell.num 1)], [("a", Cell.num 2)]] "a"
    (by decide) (by decide)

/-! ### Claim C10: per-column flow classification -/

/-- C10: the per-column statistics flow classifies a column as Numeric
exactly when it has at least one non-missing value and every non-missing
value is a number; otherwise it is Categorical with the lexicographic
min/max of the stringified non-missing values; this flow never produces the
Date or Mixed type tags. -/
theorem perColumn_classification (data : List DataRow) (column : String) :
    (((calculateColumnStats data column).type = "Numeric") ↔
      (nonNullOf (colValues data column) ≠ [] ∧
        ∀ v ∈ nonNullOf (colValues data column), v.isNum = true)) ∧
    ((calculateColumnStats data column).type = "Numeric" ∨
      (calculateColumnStats data column).type = "Categorical") ∧
    ((calculateColumnStats data column).type ≠ "Date") ∧
    ((calculateColumnStats data column).type ≠ "Mixed") ∧
    ((calculateColumnStats data column).type = "Categorical" →
      ((calculateColumnStats data column).mean = none ∧
        (calculateColumnStats data column).median = none ∧
        (calculateColumnStats data column).quartiles = none ∧
        (((nonNullOf (colValues data column)).map cellToString = []) →
          ((calculateColumnStats data column).min = none ∧
            (calculateColumnStats data column).max = none)) ∧
        (((nonNullOf (colValues data column)).map cellToString ≠ []) →
          ((∃ s, (calculateColumnStats data column).min = some (Cell.str s) ∧
              s ∈ (nonNullOf (colValues data column)).map cellToString ∧
              ∀ t ∈ (nonNullOf (colValues data column)).map cellToString, s ≤ t) ∧
            (∃ s, (calculateColumnStats data column).max = some (Cell.str s) ∧
              s ∈ (nonNullOf (colValues data column)).map cellToString ∧
              ∀ t ∈ (nonNullOf (colValues data column)).map cellToString, t ≤ s))))) := by
  by_cases h : isNumericCol (colValues data column)
  · have htype : (calculateColumnStats data column).type = "Numeric" := by
      simp [calculateColumnStats, h]
    have hcond : nonNullOf (colValues data column) ≠ [] ∧
        ∀ v ∈ nonNullOf (colValues data column), v.isNum = true := by
      unfold isNumericCol at h
      rw [Bool.and_eq_true] at h
      rcases h with ⟨h1, h2⟩
      refine ⟨?_, ?_⟩
      · intro hnil
        rw [hnil] at h1
        exact absurd (of_decide_eq_true h1) (by decide)
      · exact fun v hv => List.all_eq_true.mp h2 v hv
    refine ⟨⟨fun _ => hcond, fun _ => htype⟩, Or.inl htype, ?_, ?_, ?_⟩
    · rw [htype]; decide
    · rw [htype]; decide
    · rw [htype]; intro hc; exact absurd hc (by decide)
  · have htype : (calculateColumnStats data column).type = "Categorical" := by
      simp [calculateColumnStats, h]
    have hcond : ¬(nonNullOf (colValues data column) ≠ [] ∧
        ∀ v ∈ nonNullOf (colValues data column), v.isNum = true) := by
      rintro ⟨h1, h2⟩
      apply h
      unfold isNumericCol
      rw [Bool.and_eq_true]
      exact ⟨decide_eq_true (List.length_pos.mpr h1), List.all_eq_true.mpr h2⟩
    refine ⟨⟨fun ht => absurd (htype.symm.trans ht) (by decide), fun hc => absurd hc hcond⟩,
      Or.inr htype, ?_, ?_, ?_⟩
    · rw [htype]; decide
    · rw [htype]; decide
    · intro _
      have hmean : (calculateColumnStats data column).mean = none := by
        simp [calculateColumnStats, h]
      have hmed : (calculateColumnStats data column).median = none := by
        simp [calculateColumnStats, h]
      have hq : (calculateColumnStats data column).quartiles = none := by
        simp [calculateColumnStats, h]
      refine ⟨hmean, hmed, hq, ?_, ?_⟩
      · intro hnil
        constructor <;> simp [calculateColumnStats, h, hnil]
      · intro hne
        have hlen : 0 < ((nonNullOf (colValues data column)).map cellToString).length :=
          List.length_pos.mpr hne
        have hne2 : nonNullOf (colValues data column) ≠ [] := by
          intro hh
          rw [hh] at hne
          exact hne rfl
        have hmin : (calculateColumnStats data column).min =
            some (Cell.str ((List.insertionSort (· ≤ ·)
              ((nonNullOf (colValues data column)).map cellToString)).getD 0 "")) := by
          simp [calculateColumnStats, h, hlen, hne2]
        have hmax : (calculateColumnStats data column).max =
            some (Cell.str ((List.insertionSort (· ≤ ·)
              ((nonNullOf (colValues data column)).map cellToString)).getD
                ((List.insertionSort (· ≤ ·)
                  ((nonNullOf (colValues data column)).map cellToString)).length - 1) "")) := by
          simp [calculateColumnStats, h, hlen, hne2]
        constructor
        · exact ⟨_, hmin, insertionSort_getD_zero_mem _ _ _ hne,
            fun t ht => insertionSort_head_rel _ _ _ t ht⟩
        · exact ⟨_, hmax, insertionSort_getD_last_mem _ _ _ hne,
            fun t ht => insertionSort_last_rel _ _ _ t ht⟩

/-- Witness for C10 at a concrete two-row text column. -/
theorem perColumn_classification_witness :
    ((calculateColumnStats [[("a", Cell.str "b")], [("a", Cell.str "a")]] "a").type =
      "Categorical") ∧
    ((calculateColumnStats [[("a", Cell.str "b")], [("a", Cell.str "a")]] "a").quartiles =
      none) ∧
    (∃ s, (calculateColumnStats [[("a", Cell.str "b")], [("a", Cell.str "a")]] "a").min =
        some (Cell.str s) ∧
      s ∈ (nonNullOf (colValues [[("a", Cell.str "b")], [("a", Cell.str "a")]] "a")).map
        cellToString ∧
      ∀ t ∈ (nonNullOf (colValues [[("a", Cell.str "b")], [("a", Cell.str "a")]] "a")).map
        cellToString, s ≤ t) := by
  have h := perColumn_classification [[("a", Cell.str "b")], [("a", Cell.str "a")]] "a"
  have htype : (calculateColumnStats [[("a", Cell.str "b")], [("a", Cell.str "a")]] "a").type =
      "Categorical" := by decide
  have hcat := h.2.2.2.2 htype
  exact ⟨htype, hcat.2.2.1, (hcat.2.2.2.2 (by decide)).1⟩

end GemSheet
